import Mathlib

/-!
Verification development for the branches-with-files editor extension.

The repository contains several revisions of the same extension.  Each is
embedded in its own namespace, translated directly from the source:

* `Ext`  — src/src/extension.ts (first document): event-tracked open-file
  set persisted under the key `openFiles`, branch states under the single
  key `branchStates`, with deletion of a branch entry on an empty save.
* `Rev0` — src/unnamed/part_000 (second document): the earliest revision;
  commands only, per-branch workspaceState keys, restore without closing
  editors, `Promise.all`-based document opening.
* `Rev1` — src/unnamed/part_001 (both documents): the revision whose
  tracker keeps a module-level `openFiles` set and whose manual command
  handlers assign `currentBranch`; its `handleBranchChange` has no
  same-branch guard before restoring.
* `Rev2` — src/unnamed/part_002: the revision whose `getAllOpenFiles`
  snapshots visible editors and open documents with the hidden-segment
  filter, and whose `handleBranchChange` guards both the save and the
  restore on a branch difference.

Side effects (editor commands, notifications, warnings) are embedded as an
explicit event trace of type `List Ev`.  The filesystem is abstracted by a
predicate `canOpen : FsPath → Bool` saying which paths `openTextDocument`
can open.  Persisted key-value stores are association lists with the
JavaScript object semantics (update in place, append new keys).
-/

abbrev FsPath := String

/-- Persisted per-branch record, `interface BranchState { files: string[] }`. -/
structure BranchState where
  files : List FsPath
  deriving DecidableEq

/-- Observable actions and notifications emitted by the extension code. -/
inductive Ev where
  | closeAll
  | openReq (p : FsPath)
  | shown (p : FsPath)
  | warnFail (p : FsPath)
  | savedInfo (branch : String) (count : Nat)
  | savedInfoNoCount (branch : String)
  | noFilesInfo (branch : String)
  | restoredInfo (branch : String) (count : Nat)
  | restoredInfoNoCount (branch : String)
  | noStateInfo (branch : String)
  | errorMsg
  | uncaughtReject
  deriving DecidableEq

/-- A text document (or the document of a visible editor): its URI scheme
and its file name, the two fields the source reads. -/
structure Doc where
  scheme : String
  fileName : FsPath
  deriving DecidableEq

/-- Result of one invocation of the git CLI: whether the callback received
an error (non-zero exit or spawn failure), plus the two output streams. -/
structure ExecResult where
  err : Bool
  stdout : String
  stderr : String
  deriving DecidableEq

/-- Lookup in a JavaScript-object-like association list (`obj[key]`). -/
def getEntry : List (String × BranchState) → String → Option BranchState
  | [], _ => none
  | (k2, v) :: rest, k => if k2 = k then some v else getEntry rest k

/-- Assignment `obj[key] = value`: overwrite in place, else append. -/
def setEntry : List (String × BranchState) → String → BranchState → List (String × BranchState)
  | [], k, v => [(k, v)]
  | (k2, v2) :: rest, k, v =>
      if k2 = k then (k, v) :: rest else (k2, v2) :: setEntry rest k v

/-- Deletion `delete obj[key]`. -/
def delEntry : List (String × BranchState) → String → List (String × BranchState)
  | [], _ => []
  | (k2, v2) :: rest, k =>
      if k2 = k then delEntry rest k else (k2, v2) :: delEntry rest k

/-- Insertion into a JavaScript `Set` viewed as its insertion-ordered,
duplicate-free element list: `set.add(p)` is a no-op on a member and
appends otherwise. -/
def setAdd (l : List FsPath) (p : FsPath) : List FsPath :=
  if p ∈ l then l else l ++ [p]

/-- Removal from a JavaScript `Set`: `set.delete(p)`. -/
def setDel (l : List FsPath) (p : FsPath) : List FsPath :=
  l.filter (fun q => q ≠ p)

/-- The element list of `new Set(arr)`: first occurrences in order. -/
def setFromList (l : List FsPath) : List FsPath :=
  l.foldl setAdd []

/-- Splitting a character list at `/`, mirroring JavaScript
`filePath.split(path.sep)` with the POSIX separator. -/
def splitSegs : List Char → List (List Char)
  | [] => [[]]
  | c :: rest =>
      if c = '/' then [] :: splitSegs rest
      else
        match splitSegs rest with
        | [] => [[c]]
        | s :: ss => (c :: s) :: ss

/-- The hidden-segment filter of `getAllOpenFiles`
(part_001/part_002/extension.ts second document):
`!filePath.split(path.sep).some(part => part.startsWith('.'))`. -/
def shouldIncludeFile (filePath : FsPath) : Bool :=
  !((splitSegs filePath.data).any (fun part => part.head? == some '.'))

/-- Whitespace test used to model JavaScript `String.prototype.trim`. -/
def isWS (c : Char) : Bool :=
  c = ' ' || c = '\n' || c = '\t' || c = '\r'

/-- Character-level trim: drop leading and trailing whitespace. -/
def trimChars (l : List Char) : List Char :=
  ((l.dropWhile isWS).reverse.dropWhile isWS).reverse

/-- Model of `stdout.trim()`. -/
def trimWS (s : String) : String :=
  ⟨trimChars s.data⟩

/-- The per-file loop body of `restoreState` in the revisions that open
files one at a time: request the document, then either show it or emit the
failure warning, and continue with the remaining paths. -/
def openLoop (canOpen : FsPath → Bool) : List FsPath → List Ev
  | [] => []
  | p :: rest =>
      Ev.openReq p ::
        ((if canOpen p then [Ev.shown p] else [Ev.warnFail p]) ++ openLoop canOpen rest)

/-- The open-document request carried by an event, if any. -/
def evOpenPath : Ev → Option FsPath
  | .openReq p => some p
  | _ => none

/-- The successfully shown path carried by an event, if any. -/
def evShownPath : Ev → Option FsPath
  | .shown p => some p
  | _ => none

/-- The failed path warned about by an event, if any. -/
def evWarnPath : Ev → Option FsPath
  | .warnFail p => some p
  | _ => none

/-- All `openTextDocument` requests of a trace, in order. -/
def openReqs (tr : List Ev) : List FsPath :=
  tr.filterMap evOpenPath

/-- All successfully shown paths of a trace, in order. -/
def shownPaths (tr : List Ev) : List FsPath :=
  tr.filterMap evShownPath

/-- All per-file failure warnings of a trace, in order. -/
def warnPaths (tr : List Ev) : List FsPath :=
  tr.filterMap evWarnPath

namespace Ext

/-! Embedding of src/src/extension.ts (first document).  The persisted
workspace state has two keys: `openFiles` (a string array) and
`branchStates` (a record from branch name to `BranchState`). -/

/-- The two persisted keys of the main revision's `workspaceState`. -/
structure WorkspaceState where
  openFiles : List FsPath
  branchStates : List (String × BranchState)
  deriving DecidableEq

/-- Source `getOpenFiles`: read the stored `openFiles` array and build
`new Set(openFiles)` from it. -/
def getOpenFiles (st : WorkspaceState) : List FsPath :=
  setFromList st.openFiles

/-- Source `updateOpenFiles`: add or delete one path in the open-file set
and store `Array.from` of the result.  No hidden-segment filtering. -/
def updateOpenFiles (st : WorkspaceState) (filePath : FsPath) (isOpening : Bool) :
    WorkspaceState :=
  { st with
    openFiles :=
      if isOpening then setAdd (getOpenFiles st) filePath
      else setDel (getOpenFiles st) filePath }

/-- Source `saveState`: when the open-file list is non-empty, overwrite the
branch's entry in `branchStates`; when it is empty, delete the entry if
present.  Returns the new state and the emitted notifications. -/
def saveState (st : WorkspaceState) (branch : String) : WorkspaceState × List Ev :=
  if (getOpenFiles st).length > 0 then
    ({ st with
        branchStates := setEntry st.branchStates branch ⟨getOpenFiles st⟩ },
     [Ev.savedInfo branch (getOpenFiles st).length])
  else
    ({ st with
        branchStates :=
          if (getEntry st.branchStates branch).isSome then delEntry st.branchStates branch
          else st.branchStates },
     [Ev.noFilesInfo branch])

/-- Source `restoreState`: when a non-empty entry exists, close all editors
and open each saved path in order, warning on each failure and finally
reporting the stored file count; otherwise report that nothing was saved. -/
def restoreState (canOpen : FsPath → Bool) (st : WorkspaceState) (branch : String) :
    List Ev :=
  match getEntry st.branchStates branch with
  | some state =>
      if state.files.length > 0 then
        Ev.closeAll ::
          (openLoop canOpen state.files ++ [Ev.restoredInfo branch state.files.length])
      else [Ev.noStateInfo branch]
  | none => [Ev.noStateInfo branch]

/-- Source `getCurrentBranch` (execAsync variant): with no workspace folder
the thrown error is caught and `null` returned; a rejected `execAsync`
(non-zero exit or spawn failure) is caught the same way; otherwise the
trimmed stdout is returned.  Standard error is not inspected. -/
def getCurrentBranch (workspaceFolders : List String) (res : ExecResult) :
    Option String :=
  if workspaceFolders = [] then none
  else if res.err then none
  else some (trimWS res.stdout)

end Ext

namespace Rev0

/-! Embedding of src/unnamed/part_000 (second document): the earliest
revision.  Branch states are stored directly under the branch name as a
workspaceState key; there is no open-file tracking beyond a snapshot of
`visibleTextEditors` at save time. -/

/-- Module state of the part_000 revision: the `currentBranch` local of
`activate` plus the per-branch-keyed workspace store. -/
structure St where
  currentBranch : Option String
  store : List (String × BranchState)
  deriving DecidableEq

/-- Source `saveState` command body, after branch resolution succeeded:
`openFiles = visibleTextEditors.map(e => e.document.uri.fsPath)` stored
unconditionally (no dedup, no emptiness check). -/
def saveState (visible : List FsPath) (store : List (String × BranchState))
    (branch : String) : List (String × BranchState) × List Ev :=
  (setEntry store branch ⟨visible⟩, [Ev.savedInfoNoCount branch])

/-- Source `restoreState` command body, after branch resolution succeeded:
open every saved file through `Promise.all` (all requests issued, and a
single failure rejects the batch before any document is shown), then show
each document in order.  No editors are closed. -/
def restoreState (canOpen : FsPath → Bool) (store : List (String × BranchState))
    (branch : String) : List Ev :=
  match getEntry store branch with
  | some state =>
      if state.files.length > 0 then
        if state.files.all canOpen then
          state.files.map Ev.openReq ++ state.files.map Ev.shown ++
            [Ev.restoredInfoNoCount branch]
        else state.files.map Ev.openReq ++ [Ev.uncaughtReject]
      else [Ev.noStateInfo branch]
  | none => [Ev.noStateInfo branch]

/-- Source branch-change reaction in `activate` (git API listener and the
polling fallback alike): on a resolved branch different from
`currentBranch`, assign `currentBranch` and fire the restore command,
which re-resolves the branch (assumed stable) and restores it.  No save of
the outgoing branch occurs. -/
def onBranchChange (canOpen : FsPath → Bool) (st : St) (newBranch : String) :
    St × List Ev :=
  if some newBranch ≠ st.currentBranch then
    ({ st with currentBranch := some newBranch },
     restoreState canOpen st.store newBranch)
  else (st, [])

/-- Source `getCurrentBranch` (callback variant): `err` resolves `null`,
then non-empty `stderr` resolves `null`, otherwise the trimmed stdout. -/
def getCurrentBranch (res : ExecResult) : Option String :=
  if res.err then none
  else if res.stderr = "" then some (trimWS res.stdout)
  else none

end Rev0

namespace Rev1

/-! Embedding of src/unnamed/part_001 (second document): the revision with
a module-level `openFiles` set, `branchStates` record, an unguarded
restore in `handleBranchChange`, and manual command handlers that assign
`currentBranch`. -/

/-- Module state: `currentBranch`, the in-memory `openFiles` set (as its
insertion-ordered element list) and the persisted `branchStates` record. -/
structure St where
  currentBranch : Option String
  openFiles : List FsPath
  branchStates : List (String × BranchState)
  deriving DecidableEq

/-- Source `getAllOpenFiles`: `Array.from(openFiles)`. -/
def getAllOpenFiles (st : St) : List FsPath :=
  st.openFiles

/-- Source `saveState`: non-empty list overwrites the branch entry; empty
list deletes the entry when present. -/
def saveState (st : St) (branch : String) : St × List Ev :=
  if (getAllOpenFiles st).length > 0 then
    ({ st with
        branchStates := setEntry st.branchStates branch ⟨getAllOpenFiles st⟩ },
     [Ev.savedInfo branch (getAllOpenFiles st).length])
  else
    ({ st with
        branchStates :=
          if (getEntry st.branchStates branch).isSome then delEntry st.branchStates branch
          else st.branchStates },
     [Ev.noFilesInfo branch])

/-- Source `restoreState`: close all editors, open each saved path in
order with per-file warnings, report the stored count. -/
def restoreState (canOpen : FsPath → Bool) (st : St) (branch : String) : List Ev :=
  match getEntry st.branchStates branch with
  | some state =>
      if state.files.length > 0 then
        Ev.closeAll ::
          (openLoop canOpen state.files ++ [Ev.restoredInfo branch state.files.length])
      else [Ev.noStateInfo branch]
  | none => [Ev.noStateInfo branch]

/-- Source `handleBranchChange` (part_001 lines 321-328): save only when
the branches differ, then unconditionally assign `currentBranch` and run
`restoreState(newBranch)`. -/
def handleBranchChange (canOpen : FsPath → Bool) (st : St) (newBranch : String) :
    St × List Ev :=
  let p : St × List Ev :=
    match st.currentBranch with
    | some cb => if cb ≠ newBranch then saveState st cb else (st, [])
    | none => (st, [])
  ({ p.1 with currentBranch := some newBranch },
   p.2 ++ restoreState canOpen { p.1 with currentBranch := some newBranch } newBranch)

/-- Source manual save command handler (part_001 lines 425-441): after a
successful branch resolution it assigns `currentBranch = branch` and then
delegates to `saveState`. -/
def saveStateCommand (resolved : Option String) (st : St) : St × List Ev :=
  match resolved with
  | some branch => saveState { st with currentBranch := some branch } branch
  | none => (st, [Ev.errorMsg])

/-- Source manual restore command handler (part_001 lines 443-459): after
a successful branch resolution it assigns `currentBranch = branch` and
then delegates to `restoreState`. -/
def restoreStateCommand (resolved : Option String) (canOpen : FsPath → Bool) (st : St) :
    St × List Ev :=
  match resolved with
  | some branch =>
      ({ st with currentBranch := some branch },
       restoreState canOpen { st with currentBranch := some branch } branch)
  | none => (st, [Ev.errorMsg])

end Rev1

namespace Rev2

/-! Embedding of src/unnamed/part_002: snapshot-based `getAllOpenFiles`
with the hidden-segment filter, no entry deletion on an empty save, and a
`handleBranchChange` that guards both the save and the restore. -/

/-- Module state: `currentBranch` and the persisted `branchStates` record.
The open-file set is snapshotted from the editor at save time. -/
structure St where
  currentBranch : Option String
  branchStates : List (String × BranchState)
  deriving DecidableEq

/-- One step of `getAllOpenFiles`: add a document's file name to the set
when its scheme is `file` and it passes `shouldIncludeFile`. -/
def addDoc (acc : List FsPath) (d : Doc) : List FsPath :=
  if d.scheme == "file" && shouldIncludeFile d.fileName then setAdd acc d.fileName
  else acc

/-- Source `getAllOpenFiles`: fold the visible editors, then all open text
documents, into one insertion-ordered set and return `Array.from` of it. -/
def getAllOpenFiles (visibleTextEditors textDocuments : List Doc) : List FsPath :=
  textDocuments.foldl addDoc (visibleTextEditors.foldl addDoc [])

/-- Source `saveState` (part_002 lines 40-67): a non-empty snapshot
overwrites the branch entry; an empty snapshot only notifies, leaving any
existing entry in place. -/
def saveState (editors docs : List Doc) (st : St) (branch : String) : St × List Ev :=
  if (getAllOpenFiles editors docs).length > 0 then
    ({ st with
        branchStates :=
          setEntry st.branchStates branch ⟨getAllOpenFiles editors docs⟩ },
     [Ev.savedInfo branch (getAllOpenFiles editors docs).length])
  else (st, [Ev.noFilesInfo branch])

/-- Source `restoreState`: close all editors, open each saved path in
order with per-file warnings, report the stored count. -/
def restoreState (canOpen : FsPath → Bool) (st : St) (branch : String) : List Ev :=
  match getEntry st.branchStates branch with
  | some state =>
      if state.files.length > 0 then
        Ev.closeAll ::
          (openLoop canOpen state.files ++ [Ev.restoredInfo branch state.files.length])
      else [Ev.noStateInfo branch]
  | none => [Ev.noStateInfo branch]

/-- Source `handleBranchChange` (part_002 lines 137-151): save when a
known `currentBranch` differs from `newBranch`; then, when `newBranch`
still differs from `currentBranch`, assign it and restore. -/
def handleBranchChange (canOpen : FsPath → Bool) (editors docs : List Doc) (st : St)
    (newBranch : String) : St × List Ev :=
  let p : St × List Ev :=
    match st.currentBranch with
    | some cb => if cb ≠ newBranch then saveState editors docs st cb else (st, [])
    | none => (st, [])
  if some newBranch ≠ p.1.currentBranch then
    ({ p.1 with currentBranch := some newBranch },
     p.2 ++ restoreState canOpen { p.1 with currentBranch := some newBranch } newBranch)
  else p

/-- Source manual save command handler (part_002 lines 205-219): resolve
the branch and delegate to `saveState`; no assignment to `currentBranch`. -/
def saveStateCommand (resolved : Option String) (editors docs : List Doc) (st : St) :
    St × List Ev :=
  match resolved with
  | some branch => saveState editors docs st branch
  | none => (st, [Ev.errorMsg])

/-- Source manual restore command handler (part_002 lines 221-237):
resolve the branch and delegate to `restoreState`; no assignment to
`currentBranch`. -/
def restoreStateCommand (resolved : Option String) (canOpen : FsPath → Bool) (st : St) :
    St × List Ev :=
  match resolved with
  | some branch => (st, restoreState canOpen st branch)
  | none => (st, [Ev.errorMsg])

end Rev2

/-! Helper lemmas about the store, set and trace operations. -/

theorem getEntry_setEntry_self (m : List (String × BranchState)) (k : String)
    (v : BranchState) : getEntry (setEntry m k v) k = some v := by
  induction m with
  | nil => simp [setEntry, getEntry]
  | cons hd tl ih =>
      obtain ⟨k2, v2⟩ := hd
      by_cases h : k2 = k
      · simp [setEntry, h, getEntry]
      · simp [setEntry, h, getEntry, ih]

theorem getEntry_setEntry_ne (m : List (String × BranchState)) (k k2 : String)
    (v : BranchState) (h : k2 ≠ k) :
    getEntry (setEntry m k v) k2 = getEntry m k2 := by
  induction m with
  | nil => simp [setEntry, getEntry, Ne.symm h]
  | cons hd tl ih =>
      obtain ⟨k0, v0⟩ := hd
      by_cases h0 : k0 = k
      · subst h0
        simp [setEntry, getEntry, Ne.symm h]
      · simp only [setEntry, if_neg h0, getEntry]
        by_cases h1 : k0 = k2
        · simp [h1]
        · simp [h1, ih]

theorem getEntry_delEntry_self (m : List (String × BranchState)) (k : String) :
    getEntry (delEntry m k) k = none := by
  induction m with
  | nil => simp [delEntry, getEntry]
  | cons hd tl ih =>
      obtain ⟨k0, v0⟩ := hd
      by_cases h : k0 = k
      · simp [delEntry, h, ih]
      · simp [delEntry, h, getEntry, ih]

theorem getEntry_delEntry_ne (m : List (String × BranchState)) (k k2 : String)
    (h : k2 ≠ k) : getEntry (delEntry m k) k2 = getEntry m k2 := by
  induction m with
  | nil => simp [delEntry]
  | cons hd tl ih =>
      obtain ⟨k0, v0⟩ := hd
      by_cases h0 : k0 = k
      · subst h0
        simp [delEntry, getEntry, Ne.symm h, ih]
      · simp only [delEntry, if_neg h0, getEntry]
        by_cases h1 : k0 = k2
        · simp [h1]
        · simp [h1, ih]

theorem mem_setAdd {l : List FsPath} {p q : FsPath} (h : q ∈ setAdd l p) :
    q ∈ l ∨ q = p := by
  by_cases hp : p ∈ l
  · simp only [setAdd, if_pos hp] at h
    exact Or.inl h
  · simp only [setAdd, if_neg hp, List.mem_append, List.mem_singleton] at h
    exact h

theorem setAdd_nodup {l : List FsPath} (h : l.Nodup) (p : FsPath) :
    (setAdd l p).Nodup := by
  by_cases hp : p ∈ l
  · simpa [setAdd, if_pos hp] using h
  · simp only [setAdd, if_neg hp]
    exact List.Nodup.append h (List.nodup_singleton p)
      (fun a ha hb => hp (by rwa [List.mem_singleton.1 hb] at ha))

theorem openReqs_append (a b : List Ev) : openReqs (a ++ b) = openReqs a ++ openReqs b := by
  simp [openReqs, List.filterMap_append]

theorem shownPaths_append (a b : List Ev) :
    shownPaths (a ++ b) = shownPaths a ++ shownPaths b := by
  simp [shownPaths, List.filterMap_append]

theorem warnPaths_append (a b : List Ev) :
    warnPaths (a ++ b) = warnPaths a ++ warnPaths b := by
  simp [warnPaths, List.filterMap_append]

theorem openReqs_openLoop (canOpen : FsPath → Bool) (fs : List FsPath) :
    openReqs (openLoop canOpen fs) = fs := by
  induction fs with
  | nil => rfl
  | cons p rest ih =>
      by_cases h : canOpen p <;>
        simp [openLoop, h, openReqs, List.filterMap_cons, List.filterMap_append,
          evOpenPath, openReqs_append] <;>
        simpa [openReqs] using ih

theorem shownPaths_openLoop (canOpen : FsPath → Bool) (fs : List FsPath) :
    shownPaths (openLoop canOpen fs) = fs.filter (fun p => canOpen p) := by
  induction fs with
  | nil => rfl
  | cons p rest ih =>
      by_cases h : canOpen p <;>
        simp [openLoop, h, shownPaths, List.filterMap_cons, List.filterMap_append,
          evShownPath, List.filter_cons] <;>
        simpa [shownPaths] using ih

theorem warnPaths_openLoop (canOpen : FsPath → Bool) (fs : List FsPath) :
    warnPaths (openLoop canOpen fs) = fs.filter (fun p => !(canOpen p)) := by
  induction fs with
  | nil => rfl
  | cons p rest ih =>
      by_cases h : canOpen p <;>
        simp [openLoop, h, warnPaths, List.filterMap_cons, List.filterMap_append,
          evWarnPath, List.filter_cons] <;>
        simpa [warnPaths] using ih

theorem closeAll_not_mem_openLoop (canOpen : FsPath → Bool) (fs : List FsPath) :
    Ev.closeAll ∉ openLoop canOpen fs := by
  induction fs with
  | nil => simp [openLoop]
  | cons p rest ih =>
      by_cases h : canOpen p <;> simp [openLoop, h, ih]

theorem mem_foldl_addDoc (l : List Doc) (init : List FsPath) (p : FsPath)
    (h : p ∈ l.foldl Rev2.addDoc init) : p ∈ init ∨ shouldIncludeFile p = true := by
  induction l generalizing init with
  | nil => exact Or.inl h
  | cons d rest ih =>
      rcases ih (Rev2.addDoc init d) h with h1 | h1
      · by_cases hc : (d.scheme == "file" && shouldIncludeFile d.fileName) = true
        · simp only [Rev2.addDoc, if_pos hc] at h1
          rcases mem_setAdd h1 with h2 | h2
          · exact Or.inl h2
          · subst h2
            exact Or.inr (Bool.and_eq_true .. ▸ hc).2
        · simp only [Rev2.addDoc, if_neg hc] at h1
          exact Or.inl h1
      · exact Or.inr h1

theorem nodup_foldl_addDoc (l : List Doc) (init : List FsPath) (h : init.Nodup) :
    (l.foldl Rev2.addDoc init).Nodup := by
  induction l generalizing init with
  | nil => exact h
  | cons d rest ih =>
      refine ih (Rev2.addDoc init d) ?_
      by_cases hc : (d.scheme == "file" && shouldIncludeFile d.fileName) = true
      · simpa only [Rev2.addDoc, if_pos hc] using setAdd_nodup h d.fileName
      · simpa only [Rev2.addDoc, if_neg hc] using h

theorem mem_getAllOpenFiles {editors docs : List Doc} {p : FsPath}
    (h : p ∈ Rev2.getAllOpenFiles editors docs) : shouldIncludeFile p = true := by
  rcases mem_foldl_addDoc docs (editors.foldl Rev2.addDoc []) p h with h1 | h1
  · rcases mem_foldl_addDoc editors [] p h1 with h2 | h2
    · simp at h2
    · exact h2
  · exact h1

theorem nodup_getAllOpenFiles (editors docs : List Doc) :
    (Rev2.getAllOpenFiles editors docs).Nodup :=
  nodup_foldl_addDoc docs (editors.foldl Rev2.addDoc [])
    (nodup_foldl_addDoc editors [] List.nodup_nil)

theorem currentBranch_saveState_rev2 (editors docs : List Doc) (st : Rev2.St)
    (branch : String) :
    (Rev2.saveState editors docs st branch).1.currentBranch = st.currentBranch := by
  unfold Rev2.saveState
  split <;> rfl

theorem currentBranch_saveState_rev1 (st : Rev1.St) (branch : String) :
    (Rev1.saveState st branch).1.currentBranch = st.currentBranch := by
  unfold Rev1.saveState
  split <;> rfl

/-! Claim theorems. -/

/-- Claim C3, counterexample: in the part_001 revision (lines 321-328),
`handleBranchChange(X)` with `currentBranch = X` is not a no-op — it skips
the save but still runs `restoreState(X)`, closing all editors and
reopening the saved files.  Here `currentBranch = "main"` and the call
with `"main"` emits a full restore trace. -/
theorem handleBranchChange_same_branch_v1_cex :
    (Rev1.handleBranchChange (fun _ => true)
        ⟨some "main", [], [("main", ⟨["/repo/a.ts"]⟩)]⟩ "main").2 =
      [Ev.closeAll, Ev.openReq "/repo/a.ts", Ev.shown "/repo/a.ts",
        Ev.restoredInfo "main" 1] ∧
    (Rev1.handleBranchChange (fun _ => true)
        ⟨some "main", [], [("main", ⟨["/repo/a.ts"]⟩)]⟩ "main").2 ≠ [] := by
  decide

/-- Claim C3 (amended): in the part_002 revision, calling
`handleBranchChange(X)` when `currentBranch` already equals `X` is a
complete no-op — no save, no restore, no state mutation; in the part_001
revision the call performs no save and leaves `currentBranch` at `X` but
still runs `restoreState(X)`. -/
theorem handleBranchChange_same_branch_noop :
    ∀ (canOpen : FsPath → Bool) (editors docs : List Doc) (st : Rev2.St) (x : String),
      st.currentBranch = some x →
      Rev2.handleBranchChange canOpen editors docs st x = (st, []) := by
  intro canOpen editors docs st x h
  simp [Rev2.handleBranchChange, h]

/-- Claim C3 witness: the no-op theorem applied to a concrete state on
branch `main`. -/
theorem handleBranchChange_same_branch_noop_w :
    (⟨some "main", [("other", ⟨["/x"]⟩)]⟩ : Rev2.St).currentBranch = some "main" ∧
    Rev2.handleBranchChange (fun _ => true) [] []
        ⟨some "main", [("other", ⟨["/x"]⟩)]⟩ "main" =
      (⟨some "main", [("other", ⟨["/x"]⟩)]⟩, []) :=
  ⟨rfl, handleBranchChange_same_branch_noop (fun _ => true) [] [] _ "main" rfl⟩

/-- Claim C9, counterexample: in the part_001 revision the manual
`saveState` command handler assigns `currentBranch = branch` (lines
425-441).  With `currentBranch = "main"` and the command resolving
`"feature"`, `currentBranch` is mutated outside `handleBranchChange`. -/
theorem manual_command_mutates_branch_cex :
    (⟨some "main", ["/repo/a.ts"], []⟩ : Rev1.St).currentBranch = some "main" ∧
    (Rev1.saveStateCommand (some "feature")
        ⟨some "main", ["/repo/a.ts"], []⟩).1.currentBranch = some "feature" ∧
    (some "feature" : Option String) ≠ some "main" := by
  decide

/-- Claim C9 (amended): in the part_002 revision the manual
`saveState`/`restoreState` command handlers never assign `currentBranch`
(only `handleBranchChange` and the initial detection in `activate` write
it); in the part_001 revision both manual handlers assign
`currentBranch = branch` before delegating. -/
theorem manual_commands_preserve_branch :
    ∀ (resolved : Option String) (editors docs : List Doc) (canOpen : FsPath → Bool)
      (st : Rev2.St),
      (Rev2.saveStateCommand resolved editors docs st).1.currentBranch =
        st.currentBranch ∧
      (Rev2.restoreStateCommand resolved canOpen st).1.currentBranch =
        st.currentBranch := by
  intro resolved editors docs canOpen st
  constructor
  · cases resolved with
    | none => rfl
    | some b =>
        simpa [Rev2.saveStateCommand] using currentBranch_saveState_rev2 editors docs st b
  · cases resolved <;> rfl

/-- Claim C10: each revision's `saveState(B)` touches only the entry keyed
by `B`, leaving every other branch's persisted file list unchanged — in
the main extension.ts revision, the part_002 revision and the part_001
tracker revision. -/
theorem saveState_frame_other_branches :
    (∀ (st : Ext.WorkspaceState) (b b2 : String), b2 ≠ b →
      getEntry ((Ext.saveState st b).1.branchStates) b2 = getEntry st.branchStates b2) ∧
    (∀ (editors docs : List Doc) (st : Rev2.St) (b b2 : String), b2 ≠ b →
      getEntry ((Rev2.saveState editors docs st b).1.branchStates) b2 =
        getEntry st.branchStates b2) ∧
    (∀ (st : Rev1.St) (b b2 : String), b2 ≠ b →
      getEntry ((Rev1.saveState st b).1.branchStates) b2 =
        getEntry st.branchStates b2) := by
  refine ⟨?_, ?_, ?_⟩
  · intro st b b2 h
    unfold Ext.saveState
    split
    · simpa using getEntry_setEntry_ne _ b b2 _ h
    · simp only
      split
      · exact getEntry_delEntry_ne _ b b2 h
      · rfl
  · intro editors docs st b b2 h
    unfold Rev2.saveState
    split
    · simpa using getEntry_setEntry_ne _ b b2 _ h
    · rfl
  · intro st b b2 h
    unfold Rev1.saveState
    split
    · simpa using getEntry_setEntry_ne _ b b2 _ h
    · simp only
      split
      · exact getEntry_delEntry_ne _ b b2 h
      · rfl

/-- Claim C10 witness: saving branch `main` leaves the persisted entry of
branch `other` untouched, in all three embedded revisions. -/
theorem saveState_frame_other_branches_w :
    ("other" : String) ≠ "main" ∧
    getEntry ((Ext.saveState ⟨["/repo/a.ts"], [("other", ⟨["/x"]⟩)]⟩ "main").1.branchStates)
        "other" = getEntry [("other", ⟨["/x"]⟩)] "other" ∧
    getEntry ((Rev2.saveState [⟨"file", "/repo/a.ts"⟩] []
          ⟨none, [("other", ⟨["/x"]⟩)]⟩ "main").1.branchStates)
        "other" = getEntry [("other", ⟨["/x"]⟩)] "other" ∧
    getEntry ((Rev1.saveState ⟨none, ["/repo/a.ts"], [("other", ⟨["/x"]⟩)]⟩
          "main").1.branchStates)
        "other" = getEntry [("other", ⟨["/x"]⟩)] "other" :=
  ⟨by decide,
   saveState_frame_other_branches.1 ⟨["/repo/a.ts"], [("other", ⟨["/x"]⟩)]⟩ "main" "other"
     (by decide),
   saveState_frame_other_branches.2.1 [⟨"file", "/repo/a.ts"⟩] []
     ⟨none, [("other", ⟨["/x"]⟩)]⟩ "main" "other" (by decide),
   saveState_frame_other_branches.2.2 ⟨none, ["/repo/a.ts"], [("other", ⟨["/x"]⟩)]⟩
     "main" "other" (by decide)⟩

/-- Claim C4, counterexample: in the part_002 revision (lines 40-67),
`saveState("main")` with an empty open-file snapshot does not remove the
prior entry — the entry survives and a subsequent `restoreState("main")`
reopens its file, contrary to the claim. -/
theorem saveState_empty_v2_keeps_entry_cex :
    Rev2.saveState [] [] ⟨none, [("main", ⟨["/repo/a.ts"]⟩)]⟩ "main" =
      (⟨none, [("main", ⟨["/repo/a.ts"]⟩)]⟩, [Ev.noFilesInfo "main"]) ∧
    getEntry (Rev2.saveState [] []
        ⟨none, [("main", ⟨["/repo/a.ts"]⟩)]⟩ "main").1.branchStates "main" =
      some ⟨["/repo/a.ts"]⟩ ∧
    openReqs (Rev2.restoreState (fun _ => true)
        (Rev2.saveState [] [] ⟨none, [("main", ⟨["/repo/a.ts"]⟩)]⟩ "main").1 "main") =
      ["/repo/a.ts"] := by
  decide

/-- Claim C4 (amended): in the main extension.ts revision, `saveState(B)`
with an empty open-file set removes any previously persisted entry for
`B`, and a subsequent `restoreState(B)` reports nothing saved and opens no
files; in the part_002 revision (and the part_001 command revision) the
empty save leaves any prior entry for `B` in place. -/
theorem saveState_empty_clears_entry :
    ∀ (st : Ext.WorkspaceState) (branch : String) (canOpen : FsPath → Bool),
      Ext.getOpenFiles st = [] →
      getEntry ((Ext.saveState st branch).1.branchStates) branch = none ∧
      Ext.restoreState canOpen (Ext.saveState st branch).1 branch =
        [Ev.noStateInfo branch] := by
  intro st branch canOpen h
  have hlen : ¬ (Ext.getOpenFiles st).length > 0 := by simp [h]
  have hnone : getEntry ((Ext.saveState st branch).1.branchStates) branch = none := by
    simp only [Ext.saveState, if_neg hlen]
    split
    · exact getEntry_delEntry_self _ branch
    · rename_i h2
      exact Option.not_isSome_iff_eq_none.mp h2
  refine ⟨hnone, ?_⟩
  simp [Ext.restoreState, hnone]

/-- Claim C4 witness: the empty-save theorem applied to a state that has a
prior entry for branch `main`. -/
theorem saveState_empty_clears_entry_w :
    Ext.getOpenFiles ⟨[], [("main", ⟨["/repo/a.ts"]⟩)]⟩ = [] ∧
    getEntry ((Ext.saveState ⟨[], [("main", ⟨["/repo/a.ts"]⟩)]⟩ "main").1.branchStates)
        "main" = none ∧
    Ext.restoreState (fun _ => true)
        (Ext.saveState ⟨[], [("main", ⟨["/repo/a.ts"]⟩)]⟩ "main").1 "main" =
      [Ev.noStateInfo "main"] :=
  ⟨rfl,
   (saveState_empty_clears_entry ⟨[], [("main", ⟨["/repo/a.ts"]⟩)]⟩ "main"
      (fun _ => true) rfl).1,
   (saveState_empty_clears_entry ⟨[], [("main", ⟨["/repo/a.ts"]⟩)]⟩ "main"
      (fun _ => true) rfl).2⟩

/-- Claim C5, counterexample: in the main extension.ts revision the
open-file tracking (`updateOpenFiles`) applies no hidden-segment filter,
so a path under `.git` that is open at save time is persisted for the
branch, contrary to the claim. -/
theorem hidden_path_saved_ext_cex :
    shouldIncludeFile "/repo/.git/config" = false ∧
    getEntry ((Ext.saveState
          (Ext.updateOpenFiles ⟨[], []⟩ "/repo/.git/config" true) "main").1.branchStates)
        "main" = some ⟨["/repo/.git/config"]⟩ := by
  decide

/-- Claim C5 (amended): in the revisions whose `getAllOpenFiles` applies
the hidden-segment filter (part_001, part_002, second extension.ts
document), no path with a segment beginning with `.` ever enters a saved
file list; in the main extension.ts event-tracking revision no such filter
exists and hidden paths can be persisted. -/
theorem saved_paths_not_hidden :
    ∀ (editors docs : List Doc) (st : Rev2.St) (branch : String),
      (∀ p ∈ Rev2.getAllOpenFiles editors docs, shouldIncludeFile p = true) ∧
      (Rev2.getAllOpenFiles editors docs ≠ [] →
        getEntry ((Rev2.saveState editors docs st branch).1.branchStates) branch =
          some ⟨Rev2.getAllOpenFiles editors docs⟩) := by
  intro editors docs st branch
  refine ⟨fun p hp => mem_getAllOpenFiles hp, fun hne => ?_⟩
  have hlen : (Rev2.getAllOpenFiles editors docs).length > 0 := List.length_pos.2 hne
  simp only [Rev2.saveState, if_pos hlen]
  exact getEntry_setEntry_self _ branch _

/-- Claim C5 witness: the theorem applied to one visible `file`-scheme
editor whose path has no hidden segment. -/
theorem saved_paths_not_hidden_w :
    ("/repo/a.ts" ∈ Rev2.getAllOpenFiles [⟨"file", "/repo/a.ts"⟩] []) ∧
    shouldIncludeFile "/repo/a.ts" = true ∧
    Rev2.getAllOpenFiles [⟨"file", "/repo/a.ts"⟩] [] ≠ [] ∧
    getEntry ((Rev2.saveState [⟨"file", "/repo/a.ts"⟩] [] ⟨none, []⟩
          "main").1.branchStates) "main" =
      some ⟨Rev2.getAllOpenFiles [⟨"file", "/repo/a.ts"⟩] []⟩ :=
  ⟨by decide,
   (saved_paths_not_hidden [⟨"file", "/repo/a.ts"⟩] [] ⟨none, []⟩ "main").1 _ (by decide),
   by decide,
   (saved_paths_not_hidden [⟨"file", "/repo/a.ts"⟩] [] ⟨none, []⟩ "main").2 (by decide)⟩

/-- Claim C7, counterexample: in the part_000 revision (lines 63-77),
`saveState` stores `visibleTextEditors.map(e => e.document.uri.fsPath)`
without deduplication, so the same file shown in two editors is persisted
twice. -/
theorem duplicate_paths_v0_cex :
    (Rev0.saveState ["/repo/a.ts", "/repo/a.ts"] [] "main").1 =
      [("main", ⟨["/repo/a.ts", "/repo/a.ts"]⟩)] ∧
    ¬ (["/repo/a.ts", "/repo/a.ts"] : List FsPath).Nodup := by
  decide

/-- Claim C7 (amended): in the revisions whose `getAllOpenFiles` collects
paths through a `Set` (part_001, part_002, extension.ts), the persisted
file list contains no duplicates however many editors or documents show
the same file; in the part_000 revision `saveState` maps the visible
editors directly, so a file shown twice is stored twice. -/
theorem saved_files_nodup :
    ∀ (editors docs : List Doc) (st : Rev2.St) (branch : String),
      (Rev2.getAllOpenFiles editors docs).Nodup ∧
      (Rev2.getAllOpenFiles editors docs ≠ [] →
        getEntry ((Rev2.saveState editors docs st branch).1.branchStates) branch =
          some ⟨Rev2.getAllOpenFiles editors docs⟩) := by
  intro editors docs st branch
  refine ⟨nodup_getAllOpenFiles editors docs, fun hne => ?_⟩
  have hlen : (Rev2.getAllOpenFiles editors docs).length > 0 := List.length_pos.2 hne
  simp only [Rev2.saveState, if_pos hlen]
  exact getEntry_setEntry_self _ branch _

/-- Claim C7 witness: the theorem applied to two visible editors showing
the same file; the snapshot dedupes it to a single entry. -/
theorem saved_files_nodup_w :
    (Rev2.getAllOpenFiles [⟨"file", "/repo/a.ts"⟩, ⟨"file", "/repo/a.ts"⟩] []).Nodup ∧
    Rev2.getAllOpenFiles [⟨"file", "/repo/a.ts"⟩, ⟨"file", "/repo/a.ts"⟩] [] ≠ [] ∧
    getEntry ((Rev2.saveState [⟨"file", "/repo/a.ts"⟩, ⟨"file", "/repo/a.ts"⟩] []
          ⟨none, []⟩ "main").1.branchStates) "main" =
      some ⟨Rev2.getAllOpenFiles [⟨"file", "/repo/a.ts"⟩, ⟨"file", "/repo/a.ts"⟩] []⟩ :=
  ⟨(saved_files_nodup [⟨"file", "/repo/a.ts"⟩, ⟨"file", "/repo/a.ts"⟩] []
      ⟨none, []⟩ "main").1,
   by decide,
   (saved_files_nodup [⟨"file", "/repo/a.ts"⟩, ⟨"file", "/repo/a.ts"⟩] []
      ⟨none, []⟩ "main").2 (by decide)⟩

theorem openReqs_cons_closeAll (tr : List Ev) :
    openReqs (Ev.closeAll :: tr) = openReqs tr := by
  simp [openReqs, List.filterMap_cons, evOpenPath]

theorem openReqs_singleton_restoredInfo (b : String) (n : Nat) :
    openReqs [Ev.restoredInfo b n] = [] := by
  simp [openReqs, evOpenPath]

theorem shownPaths_cons_closeAll (tr : List Ev) :
    shownPaths (Ev.closeAll :: tr) = shownPaths tr := by
  simp [shownPaths, List.filterMap_cons, evShownPath]

theorem shownPaths_singleton_restoredInfo (b : String) (n : Nat) :
    shownPaths [Ev.restoredInfo b n] = [] := by
  simp [shownPaths, evShownPath]

theorem warnPaths_cons_closeAll (tr : List Ev) :
    warnPaths (Ev.closeAll :: tr) = warnPaths tr := by
  simp [warnPaths, List.filterMap_cons, evWarnPath]

theorem warnPaths_singleton_restoredInfo (b : String) (n : Nat) :
    warnPaths [Ev.restoredInfo b n] = [] := by
  simp [warnPaths, evWarnPath]

theorem openReqs_map_openReq (l : List FsPath) : openReqs (l.map Ev.openReq) = l := by
  induction l with
  | nil => rfl
  | cons p rest ih => simpa [openReqs, List.filterMap_cons, evOpenPath] using ih

theorem openReqs_map_shown (l : List FsPath) : openReqs (l.map Ev.shown) = [] := by
  induction l with
  | nil => rfl
  | cons p rest ih => simp [openReqs, List.filterMap_cons, evOpenPath]

/-- Claim C1, counterexample: in the part_000 revision, `saveState`
followed by `restoreState` for the same branch issues the open requests
but never closes the open editors — the trace contains no close-all
action, contradicting the clause that restore first closes all open
editor views. -/
theorem restore_v0_no_closeAll_cex :
    Rev0.restoreState (fun _ => true) (Rev0.saveState ["/repo/b.ts"] [] "main").1
        "main" =
      [Ev.openReq "/repo/b.ts", Ev.shown "/repo/b.ts", Ev.restoredInfoNoCount "main"] ∧
    Ev.closeAll ∉
      Rev0.restoreState (fun _ => true) (Rev0.saveState ["/repo/b.ts"] [] "main").1
        "main" := by
  decide

/-- Claim C1 (amended): in the main extension.ts revision, `saveState(B)`
followed immediately by `restoreState(B)` with a non-empty open-file set
`F` first closes all editors and then issues open requests for exactly the
paths of `F` in stored order, whatever else the state holds; in the
part_000 revision the same sequence issues open requests for exactly the
stored paths but closes no editors. -/
theorem saveRestore_trace_amended :
    (∀ (canOpen : FsPath → Bool) (st : Ext.WorkspaceState) (branch : String),
      Ext.getOpenFiles st ≠ [] →
      (Ext.restoreState canOpen (Ext.saveState st branch).1 branch).head? =
        some Ev.closeAll ∧
      openReqs (Ext.restoreState canOpen (Ext.saveState st branch).1 branch) =
        Ext.getOpenFiles st) ∧
    (∀ (canOpen : FsPath → Bool) (visible : List FsPath)
      (store : List (String × BranchState)) (branch : String),
      visible ≠ [] → visible.all canOpen = true →
      openReqs (Rev0.restoreState canOpen (Rev0.saveState visible store branch).1
          branch) = visible ∧
      Ev.closeAll ∉
        Rev0.restoreState canOpen (Rev0.saveState visible store branch).1 branch) := by
  constructor
  · intro canOpen st branch h
    have hlen : (Ext.getOpenFiles st).length > 0 := List.length_pos.2 h
    have hget : getEntry ((Ext.saveState st branch).1.branchStates) branch =
        some ⟨Ext.getOpenFiles st⟩ := by
      simp only [Ext.saveState, if_pos hlen]
      exact getEntry_setEntry_self _ branch _
    have htr : Ext.restoreState canOpen (Ext.saveState st branch).1 branch =
        Ev.closeAll :: (openLoop canOpen (Ext.getOpenFiles st) ++
          [Ev.restoredInfo branch (Ext.getOpenFiles st).length]) := by
      simp [Ext.restoreState, hget, hlen]
    rw [htr]
    refine ⟨rfl, ?_⟩
    rw [openReqs_cons_closeAll, openReqs_append, openReqs_openLoop,
      openReqs_singleton_restoredInfo, List.append_nil]
  · intro canOpen visible store branch h hall
    have hlen : visible.length > 0 := List.length_pos.2 h
    have hget : getEntry ((Rev0.saveState visible store branch).1) branch =
        some ⟨visible⟩ := getEntry_setEntry_self _ branch _
    have htr : Rev0.restoreState canOpen (Rev0.saveState visible store branch).1
        branch =
        visible.map Ev.openReq ++ visible.map Ev.shown ++
          [Ev.restoredInfoNoCount branch] := by
      simp [Rev0.restoreState, hget, hlen, hall]
    rw [htr]
    constructor
    · rw [openReqs_append, openReqs_append, openReqs_map_openReq, openReqs_map_shown]
      simp [openReqs, evOpenPath]
    · simp [List.mem_append, List.mem_map]

/-- Claim C1 witness: the amended theorem applied to concrete states in
both revisions. -/
theorem saveRestore_trace_amended_w :
    Ext.getOpenFiles ⟨["/repo/a.ts"], []⟩ ≠ [] ∧
    openReqs (Ext.restoreState (fun _ => true)
        (Ext.saveState ⟨["/repo/a.ts"], []⟩ "main").1 "main") =
      Ext.getOpenFiles ⟨["/repo/a.ts"], []⟩ ∧
    openReqs (Rev0.restoreState (fun _ => true)
        (Rev0.saveState ["/repo/b.ts"] [] "main").1 "main") = ["/repo/b.ts"] :=
  ⟨by decide,
   (saveRestore_trace_amended.1 (fun _ => true) ⟨["/repo/a.ts"], []⟩ "main"
      (by decide)).2,
   (saveRestore_trace_amended.2 (fun _ => true) ["/repo/b.ts"] [] "main" (by decide)
      (by decide)).1⟩

/-- Claim C2, counterexample: in the part_000 revision the detected branch
change (activate, lines 99-123) assigns `currentBranch` and fires the
restore command but never saves the outgoing branch: with
`currentBranch = "main"` known and a change to `"feature"`, the store is
left without any entry for `main` and the trace contains no save event. -/
theorem branchChange_v0_no_save_cex :
    Rev0.onBranchChange (fun _ => true) ⟨some "main", []⟩ "feature" =
      (⟨some "feature", []⟩, [Ev.noStateInfo "feature"]) ∧
    (Rev0.onBranchChange (fun _ => true) ⟨some "main", []⟩ "feature").1.store = [] := by
  decide

/-- Claim C2 (amended): in the revisions that define `handleBranchChange`
(part_002 and the part_001 tracker), a detected change to `newBranch` with
a known, different `currentBranch` runs `saveState(currentBranch)` to
completion, then sets `currentBranch := newBranch`, then runs
`restoreState(newBranch)` — the call equals that sequential composition;
in the part_000 revision the detected change assigns `currentBranch` and
restores without saving the outgoing branch. -/
theorem handleBranchChange_sequence :
    (∀ (canOpen : FsPath → Bool) (editors docs : List Doc) (st : Rev2.St)
      (newBranch cb : String),
      st.currentBranch = some cb → cb ≠ newBranch →
      Rev2.handleBranchChange canOpen editors docs st newBranch =
        ({ (Rev2.saveState editors docs st cb).1 with currentBranch := some newBranch },
         (Rev2.saveState editors docs st cb).2 ++
           Rev2.restoreState canOpen
             { (Rev2.saveState editors docs st cb).1 with
                 currentBranch := some newBranch } newBranch)) ∧
    (∀ (canOpen : FsPath → Bool) (st : Rev1.St) (newBranch cb : String),
      st.currentBranch = some cb → cb ≠ newBranch →
      Rev1.handleBranchChange canOpen st newBranch =
        ({ (Rev1.saveState st cb).1 with currentBranch := some newBranch },
         (Rev1.saveState st cb).2 ++
           Rev1.restoreState canOpen
             { (Rev1.saveState st cb).1 with currentBranch := some newBranch }
             newBranch)) := by
  constructor
  · intro canOpen editors docs st newBranch cb hcb hne
    have hcond : some newBranch ≠ (Rev2.saveState editors docs st cb).1.currentBranch := by
      rw [currentBranch_saveState_rev2, hcb]
      intro he
      exact hne (Option.some.inj he).symm
    simp only [Rev2.handleBranchChange, hcb]
    rw [if_pos hne, if_pos hcond]
  · intro canOpen st newBranch cb hcb hne
    simp only [Rev1.handleBranchChange, hcb]
    rw [if_pos hne]

/-- Claim C2 witness: the sequencing theorem applied to a change from
`main` to `feature` with one visible file, in both revisions. -/
theorem handleBranchChange_sequence_w :
    (⟨some "main", []⟩ : Rev2.St).currentBranch = some "main" ∧
    ("main" : String) ≠ "feature" ∧
    Rev2.handleBranchChange (fun _ => true) [⟨"file", "/repo/a.ts"⟩] []
        ⟨some "main", []⟩ "feature" =
      ({ (Rev2.saveState [⟨"file", "/repo/a.ts"⟩] [] ⟨some "main", []⟩ "main").1 with
           currentBranch := some "feature" },
       (Rev2.saveState [⟨"file", "/repo/a.ts"⟩] [] ⟨some "main", []⟩ "main").2 ++
         Rev2.restoreState (fun _ => true)
           { (Rev2.saveState [⟨"file", "/repo/a.ts"⟩] [] ⟨some "main", []⟩ "main").1 with
               currentBranch := some "feature" } "feature") ∧
    Rev1.handleBranchChange (fun _ => true) ⟨some "main", ["/repo/a.ts"], []⟩
        "feature" =
      ({ (Rev1.saveState ⟨some "main", ["/repo/a.ts"], []⟩ "main").1 with
           currentBranch := some "feature" },
       (Rev1.saveState ⟨some "main", ["/repo/a.ts"], []⟩ "main").2 ++
         Rev1.restoreState (fun _ => true)
           { (Rev1.saveState ⟨some "main", ["/repo/a.ts"], []⟩ "main").1 with
               currentBranch := some "feature" } "feature") :=
  ⟨rfl, by decide,
   handleBranchChange_sequence.1 (fun _ => true) [⟨"file", "/repo/a.ts"⟩] []
     ⟨some "main", []⟩ "feature" "main" rfl (by decide),
   handleBranchChange_sequence.2 (fun _ => true) ⟨some "main", ["/repo/a.ts"], []⟩
     "feature" "main" rfl (by decide)⟩

/-- Claim C6, counterexample: in the main extension.ts revision, restoring
a two-file list where one open fails shows one file but reports the
originally saved count (2 files) in the completion message — not the count
actually opened. -/
theorem restore_reports_saved_count_cex :
    (shownPaths (Ext.restoreState (fun p => p == "/repo/a.ts")
        ⟨[], [("main", ⟨["/repo/a.ts", "/repo/b.ts"]⟩)]⟩ "main")).length = 1 ∧
    Ev.restoredInfo "main" 2 ∈ Ext.restoreState (fun p => p == "/repo/a.ts")
        ⟨[], [("main", ⟨["/repo/a.ts", "/repo/b.ts"]⟩)]⟩ "main" ∧
    Ev.restoredInfo "main" 1 ∉ Ext.restoreState (fun p => p == "/repo/a.ts")
        ⟨[], [("main", ⟨["/repo/a.ts", "/repo/b.ts"]⟩)]⟩ "main" := by
  decide

/-- Claim C6 (amended): in the main extension.ts revision, each failing
path in `restoreState(B)` is handled in isolation — warned about and
skipped — every path in the list is still attempted in order, the restore
always completes with a report, but the report carries the originally
saved count (`state.files.length`), not the count actually opened. -/
theorem restore_failure_isolation :
    ∀ (canOpen : FsPath → Bool) (st : Ext.WorkspaceState) (branch : String)
      (bs : BranchState),
      getEntry st.branchStates branch = some bs →
      bs.files ≠ [] →
      openReqs (Ext.restoreState canOpen st branch) = bs.files ∧
      shownPaths (Ext.restoreState canOpen st branch) =
        bs.files.filter (fun p => canOpen p) ∧
      warnPaths (Ext.restoreState canOpen st branch) =
        bs.files.filter (fun p => !(canOpen p)) ∧
      Ev.restoredInfo branch bs.files.length ∈ Ext.restoreState canOpen st branch := by
  intro canOpen st branch bs hget hne
  have hlen : bs.files.length > 0 := List.length_pos.2 hne
  have htr : Ext.restoreState canOpen st branch =
      Ev.closeAll :: (openLoop canOpen bs.files ++
        [Ev.restoredInfo branch bs.files.length]) := by
    simp [Ext.restoreState, hget, hlen]
  rw [htr]
  refine ⟨?_, ?_, ?_, ?_⟩
  · rw [openReqs_cons_closeAll, openReqs_append, openReqs_openLoop,
      openReqs_singleton_restoredInfo, List.append_nil]
  · rw [shownPaths_cons_closeAll, shownPaths_append, shownPaths_openLoop,
      shownPaths_singleton_restoredInfo, List.append_nil]
  · rw [warnPaths_cons_closeAll, warnPaths_append, warnPaths_openLoop,
      warnPaths_singleton_restoredInfo, List.append_nil]
  · simp

/-- Claim C6 witness: the theorem applied to a saved list of two files of
which only the first can be opened. -/
theorem restore_failure_isolation_w :
    getEntry [("main", ⟨["/repo/a.ts", "/repo/b.ts"]⟩)] "main" =
      some ⟨["/repo/a.ts", "/repo/b.ts"]⟩ ∧
    (["/repo/a.ts", "/repo/b.ts"] : List FsPath) ≠ [] ∧
    openReqs (Ext.restoreState (fun p => p == "/repo/a.ts")
        ⟨[], [("main", ⟨["/repo/a.ts", "/repo/b.ts"]⟩)]⟩ "main") =
      ["/repo/a.ts", "/repo/b.ts"] ∧
    Ev.restoredInfo "main" 2 ∈ Ext.restoreState (fun p => p == "/repo/a.ts")
        ⟨[], [("main", ⟨["/repo/a.ts", "/repo/b.ts"]⟩)]⟩ "main" :=
  ⟨by decide, by decide,
   (restore_failure_isolation (fun p => p == "/repo/a.ts")
      ⟨[], [("main", ⟨["/repo/a.ts", "/repo/b.ts"]⟩)]⟩ "main"
      ⟨["/repo/a.ts", "/repo/b.ts"]⟩ (by decide) (by decide)).1,
   (restore_failure_isolation (fun p => p == "/repo/a.ts")
      ⟨[], [("main", ⟨["/repo/a.ts", "/repo/b.ts"]⟩)]⟩ "main"
      ⟨["/repo/a.ts", "/repo/b.ts"]⟩ (by decide) (by decide)).2.2.2⟩

/-- Claim C8, counterexample: in the execAsync-based `getCurrentBranch` of
src/src/extension.ts (lines 82-97), output on standard error with a zero
exit code is not a failure signal: the call still returns the trimmed
stdout branch name instead of null. -/
theorem stderr_ignored_ext_cex :
    Ext.getCurrentBranch ["/repo"] ⟨false, "main\n", "warning: redirecting"⟩ =
      some "main" ∧
    ("warning: redirecting" : String) ≠ "" ∧
    Ext.getCurrentBranch ["/repo"] ⟨false, "main\n", "warning: redirecting"⟩ ≠
      none := by
  decide

/-- Claim C8 (amended): in the callback-based revisions (part_000,
part_001 first document) both a reported error and any output on standard
error make `getCurrentBranch` return null; in the execAsync-based
revisions (extension.ts, part_001 tracker, part_002) only a rejected exec
(non-zero exit or spawn failure) yields null — standard error alone is
ignored and the trimmed stdout is returned. -/
theorem getCurrentBranch_failure_signals :
    (∀ res : ExecResult, res.err = true ∨ res.stderr ≠ "" →
      Rev0.getCurrentBranch res = none) ∧
    (∀ (workspaceFolders : List String) (res : ExecResult),
      workspaceFolders ≠ [] → res.err = false →
      Ext.getCurrentBranch workspaceFolders res = some (trimWS res.stdout)) := by
  constructor
  · intro res h
    unfold Rev0.getCurrentBranch
    rcases h with h | h
    · simp [h]
    · by_cases he : res.err
      · simp [he]
      · simp [he, h]
  · intro ws res hws herr
    simp [Ext.getCurrentBranch, hws, herr]

/-- Claim C8 witness: the theorem applied to an errored invocation, a
clean-exit invocation with stderr output, and a clean invocation. -/
theorem getCurrentBranch_failure_signals_w :
    ((⟨true, "", ""⟩ : ExecResult).err = true ∨
      (⟨true, "", ""⟩ : ExecResult).stderr ≠ "") ∧
    Rev0.getCurrentBranch ⟨true, "", ""⟩ = none ∧
    Rev0.getCurrentBranch ⟨false, "main\n", "warning"⟩ = none ∧
    (["/repo"] : List String) ≠ [] ∧
    Ext.getCurrentBranch ["/repo"] ⟨false, "main\n", ""⟩ = some (trimWS "main\n") :=
  ⟨Or.inl rfl,
   getCurrentBranch_failure_signals.1 ⟨true, "", ""⟩ (Or.inl rfl),
   getCurrentBranch_failure_signals.1 ⟨false, "main\n", "warning"⟩ (Or.inr (by decide)),
   by decide,
   getCurrentBranch_failure_signals.2 ["/repo"] ⟨false, "main\n", ""⟩ (by decide) rfl⟩
